import Mathlib

/-!
Verification of the resilience layer of the threads-mcp repository:
the token-bucket `RateLimiter` (src/utils/rate-limiter.ts), the TTL/LRU
`Cache` (src/utils/cache.ts) and the `WebhookManager`
(src/utils/webhook.ts).  Each TypeScript class is embedded shallowly:
JavaScript numbers become rationals (`ℚ`) or integers, `Date.now()`
becomes an explicit `now` argument threaded through every operation, a
JS `Map` becomes an insertion-ordered association list, and callbacks /
event emissions become explicit event lists returned by the operations.
-/

namespace ThreadsMCP

/-! ## Token bucket rate limiter (src/utils/rate-limiter.ts) -/

structure RateLimiter where
  maxTokens : ℚ
  refillRate : ℚ
  refillInterval : ℚ
  tokens : ℚ
  lastRefill : ℚ
  deriving Repr, DecidableEq

namespace RateLimiter

/-- The constructor: `refillInterval = options.refillInterval || 1000`
(a falsy `0` or an absent value falls back to 1000); the bucket starts
full with `tokens = maxTokens` and `lastRefill = Date.now()`. -/
def mk' (maxTokens refillRate : ℚ) (refillInterval? : Option ℚ) (now : ℚ) :
    RateLimiter :=
  { maxTokens := maxTokens
    refillRate := refillRate
    refillInterval :=
      match refillInterval? with
      | none => 1000
      | some i => if i = 0 then 1000 else i
    tokens := maxTokens
    lastRefill := now }

/-- `refill()`: add `elapsed / refillInterval * refillRate` tokens,
capped at `maxTokens`, and move the refill clock to `now`. -/
def refill (s : RateLimiter) (now : ℚ) : RateLimiter :=
  { s with
    tokens := min s.maxTokens
      (s.tokens + (now - s.lastRefill) / s.refillInterval * s.refillRate)
    lastRefill := now }

/-- `tryConsume(tokens)`: refill, then deduct if `this.tokens >= tokens`. -/
def tryConsume (s : RateLimiter) (n : ℚ) (now : ℚ) : Bool × RateLimiter :=
  if n ≤ (s.refill now).tokens then
    (true, { s.refill now with tokens := (s.refill now).tokens - n })
  else (false, s.refill now)

/-- `consume(tokens)`: the waiting loop, polling `tryConsume` at each
of the given wall-clock times until one of them succeeds.  (The
`getWaitTime` call that sizes each sleep performs one more lazy refill
at essentially the same clock reading; that intermediate refill is
subsumed by the next poll's refill and is elided here.) -/
def consumeRun (s : RateLimiter) (n : ℚ) : List ℚ → RateLimiter
  | [] => s
  | t :: ts =>
    let r := s.tryConsume n t
    if r.1 then r.2 else consumeRun r.2 n ts

/-- `getWaitTime(tokens)`: refill, then
`ceil((needed - available) / refillRate) * refillInterval` (0 when
enough tokens are already available). -/
def getWaitTime (s : RateLimiter) (n : ℚ) (now : ℚ) : ℚ × RateLimiter :=
  if n ≤ (s.refill now).tokens then (0, s.refill now)
  else (((⌈(n - (s.refill now).tokens) / s.refillRate⌉ : ℤ) : ℚ) *
    s.refillInterval, s.refill now)

/-- `getTokens()`: refill, then report the count. -/
def getTokens (s : RateLimiter) (now : ℚ) : ℚ × RateLimiter :=
  ((s.refill now).tokens, s.refill now)

/-- `reset()`: restore a full bucket and reset the refill clock. -/
def reset (s : RateLimiter) (now : ℚ) : RateLimiter :=
  { s with tokens := s.maxTokens, lastRefill := now }

end RateLimiter

/-- One observable operation on a `RateLimiter`, carrying the value of
`Date.now()` at the moment the call runs (for `consume`, the times of
the successive polls of its wait loop). -/
inductive RLOp where
  | tryConsume (n : ℚ) (now : ℚ)
  | consume (n : ℚ) (polls : List ℚ)
  | getWaitTime (n : ℚ) (now : ℚ)
  | getTokens (now : ℚ)
  | reset (now : ℚ)
  deriving Repr, DecidableEq

namespace RLOp

/-- The wall-clock instants an operation observes, in order. -/
def times : RLOp → List ℚ
  | .tryConsume _ now => [now]
  | .consume _ polls => polls
  | .getWaitTime _ now => [now]
  | .getTokens now => [now]
  | .reset now => [now]

/-- The consumption amount requested by an operation, if any.
(`getWaitTime` never deducts, so its amount is irrelevant.) -/
def amountOk : RLOp → Prop
  | .tryConsume n _ => 0 ≤ n
  | .consume n _ => 0 ≤ n
  | _ => True

instance : DecidablePred amountOk := by
  intro op; cases op <;> simp [amountOk] <;> infer_instance

end RLOp

/-- State transition of a single rate-limiter operation. -/
def rlStep (s : RateLimiter) : RLOp → RateLimiter
  | .tryConsume n now => (s.tryConsume n now).2
  | .consume n polls => s.consumeRun n polls
  | .getWaitTime n now => (s.getWaitTime n now).2
  | .getTokens now => (s.getTokens now).2
  | .reset now => s.reset now

/-- Run a sequence of rate-limiter operations. -/
def rlRun (s : RateLimiter) : List RLOp → RateLimiter
  | [] => s
  | op :: ops => rlRun (rlStep s op) ops

/-- The bucket invariant claimed by the spec. -/
def RLInv (s : RateLimiter) : Prop :=
  0 ≤ s.tokens ∧ s.tokens ≤ s.maxTokens

instance : DecidablePred RLInv := fun _ => instDecidableAnd

/-- Well-formed configuration, per the spec's configuration contract
(`maxTokens` positive, `refillRate` positive, interval positive). -/
def RLWF (s : RateLimiter) : Prop :=
  0 ≤ s.maxTokens ∧ 0 ≤ s.refillRate ∧ 0 < s.refillInterval

instance : DecidablePred RLWF := fun _ => instDecidableAnd

/-! ## TTL/LRU cache (src/utils/cache.ts)

Timestamps and TTLs are integer milliseconds (`Date.now()` returns an
integer).  The JS `Map` is an insertion-ordered association list:
`Map.set` of an existing key updates the entry in place, of a new key
appends; iteration (`forEach`, `keys`) follows that order.  The
`onEvict` callback is modelled by returning the list of
`(key, value)` pairs it was invoked on. -/

structure CacheEntry (T : Type) where
  value : T
  expires : ℤ
  lastAccessed : ℤ
  deriving Repr, DecidableEq

/-- `Map.prototype.get`: the entry stored under `k`, if any. -/
def mapLookup (k : String) : List (String × CacheEntry T) → Option (CacheEntry T)
  | [] => none
  | (k', e) :: rest => if k' = k then some e else mapLookup k rest

/-- `Map.prototype.set`: replace in place, or append a new binding. -/
def mapSet (k : String) (e : CacheEntry T) :
    List (String × CacheEntry T) → List (String × CacheEntry T)
  | [] => [(k, e)]
  | (k', e') :: rest =>
    if k' = k then (k, e) :: rest else (k', e') :: mapSet k e rest

/-- `Map.prototype.delete`: remove the binding of `k`, if any. -/
def mapDelete (k : String) :
    List (String × CacheEntry T) → List (String × CacheEntry T)
  | [] => []
  | (k', e') :: rest => if k' = k then rest else (k', e') :: mapDelete k rest

structure Cache (T : Type) where
  entries : List (String × CacheEntry T)
  ttl : ℤ
  maxSize : ℕ
  deriving Repr, DecidableEq

namespace Cache

/-- The constructor: `ttl = options.ttl || 60000` and
`maxSize = options.maxSize || 1000` (falsy `0` falls back to the
default), starting from an empty map. -/
def mk' (ttl? : Option ℤ) (maxSize? : Option ℕ) : Cache T :=
  { entries := []
    ttl := match ttl? with
      | none => 60000
      | some t => if t = 0 then 60000 else t
    maxSize := match maxSize? with
      | none => 1000
      | some m => if m = 0 then 1000 else m }

/-- `delete(key)`: invoke `onEvict` with the stored value when the key
is present, then remove it; returns whether a binding was removed. -/
def delete (c : Cache T) (k : String) : Bool × Cache T × List (String × T) :=
  (mapLookup k c.entries).elim (false, c, [])
    (fun e =>
      (true, { c with entries := mapDelete k c.entries }, [(k, e.value)]))

/-- `get(key)`: absent if never set; an entry with `now > expires` is
deleted on observation (lazy expiry) and reported absent; otherwise
`lastAccessed` is bumped to `now` and the value returned. -/
def get (c : Cache T) (k : String) (now : ℤ) :
    Option T × Cache T × List (String × T) :=
  (mapLookup k c.entries).elim (none, c, [])
    (fun e =>
      if e.expires < now then
        (none, (c.delete k).2.1, (c.delete k).2.2)
      else
        (some e.value,
          { c with
            entries := mapSet k { e with lastAccessed := now } c.entries },
          []))

/-- `evictLRU()`: linear scan for the entry with the strictly smallest
`lastAccessed` (ties keep the earliest-scanned entry), starting from
`oldestTime = Infinity`. -/
def findLRU : Option (String × ℤ) → List (String × CacheEntry T) → Option (String × ℤ)
  | best, [] => best
  | none, (k, e) :: rest => findLRU (some (k, e.lastAccessed)) rest
  | some (bk, bt), (k, e) :: rest =>
    if e.lastAccessed < bt then findLRU (some (k, e.lastAccessed)) rest
    else findLRU (some (bk, bt)) rest

/-- The final `if (oldestKey)` is a JS truthiness test: it is false
not only for `null` (empty cache) but also for the empty-string key,
in which case nothing is evicted. -/
def evictLRU (c : Cache T) : Cache T × List (String × T) :=
  (findLRU none c.entries).elim (c, [])
    (fun p =>
      if p.1 = "" then (c, [])
      else ((c.delete p.1).2.1, (c.delete p.1).2.2))

/-- The effective TTL of a `set`: `ttl || this.ttl`, so an absent or
zero (falsy) argument falls back to the cache default. -/
def effTtl (c : Cache T) (ttl? : Option ℤ) : ℤ :=
  match ttl? with
  | none => c.ttl
  | some t => if t = 0 then c.ttl else t

/-- `set(key, value, ttl?)`: evict the LRU entry first when the map is
at `maxSize` and the key is new (`!this.cache.has(key)` is the raw map
membership, with no expiry check), then store the entry. -/
def set (c : Cache T) (k : String) (v : T) (ttl? : Option ℤ) (now : ℤ) :
    Cache T × List (String × T) :=
  if c.maxSize ≤ c.entries.length ∧ (mapLookup k c.entries).isNone then
    ({ c.evictLRU.1 with
        entries := mapSet k ⟨v, now + c.effTtl ttl?, now⟩ c.evictLRU.1.entries },
      c.evictLRU.2)
  else
    ({ c with entries := mapSet k ⟨v, now + c.effTtl ttl?, now⟩ c.entries },
      [])

/-- `has(key)`: like `get` but without touching `lastAccessed`. -/
def has (c : Cache T) (k : String) (now : ℤ) :
    Bool × Cache T × List (String × T) :=
  (mapLookup k c.entries).elim (false, c, [])
    (fun e =>
      if e.expires < now then (false, (c.delete k).2.1, (c.delete k).2.2)
      else (true, c, []))

/-- `clear()`: invoke `onEvict` for every entry, then empty the map. -/
def clear (c : Cache T) : Cache T × List (String × T) :=
  ({ c with entries := [] }, c.entries.map (fun p => (p.1, p.2.value)))

/-- `size()`: the raw map size, with no expiry filtering. -/
def size (c : Cache T) : ℕ := c.entries.length

/-- `keys()`: all present keys, expired-but-unswept ones included. -/
def keys (c : Cache T) : List String := c.entries.map Prod.fst

/-- `cleanExpired()`: collect the keys with `now > expires`, then
delete each (each deletion invoking `onEvict`). -/
def deleteAll (c : Cache T) : List String → Cache T × List (String × T)
  | [] => (c, [])
  | k :: ks =>
    ((deleteAll (c.delete k).2.1 ks).1,
      (c.delete k).2.2 ++ (deleteAll (c.delete k).2.1 ks).2)

def cleanExpired (c : Cache T) (now : ℤ) : Cache T × List (String × T) :=
  c.deleteAll ((c.entries.filter (fun p => p.2.expires < now)).map Prod.fst)

end Cache

/-- One line of the `stats()` report: `expiresIn = expires - now` (negative
once expired) and `lastAccessed = now - lastAccessed` (idle time). -/
structure StatsEntry where
  key : String
  expiresIn : ℤ
  lastAccessed : ℤ
  deriving Repr, DecidableEq

structure CacheStats where
  size : ℕ
  maxSize : ℕ
  ttl : ℤ
  entries : List StatsEntry
  deriving Repr, DecidableEq

/-- `stats()`: report over the raw map contents, without filtering or
removing expired entries. -/
def Cache.stats (c : Cache T) (now : ℤ) : CacheStats :=
  { size := c.entries.length
    maxSize := c.maxSize
    ttl := c.ttl
    entries := c.entries.map
      (fun p => ⟨p.1, p.2.expires - now, now - p.2.lastAccessed⟩) }

/-- Well-formedness: the map never binds a key twice. -/
def CacheWF (c : Cache T) : Prop := (c.entries.map Prod.fst).Nodup

instance : DecidablePred (CacheWF (T := T)) :=
  fun c => List.nodupDecidable (c.entries.map Prod.fst)

/-! ## Webhook manager (src/utils/webhook.ts)

`attemptDelivery` is embedded per delivery.  The network is the
environment: each attempt's `sendWebhook` either resolves with a 2xx
response `(status, body)` or throws (non-2xx, network error or
timeout), which we model as a function from the attempt index to an
outcome.  A run returns the final delivery record together with the
ordered trace of observable events: the bookkeeping at the start of
each attempt, the `delivery:success` / `delivery:failed` emissions,
and the backoff waits. -/

inductive AttemptOutcome where
  | ok (status : ℕ) (body : String)
  | err (msg : String)
  deriving Repr, DecidableEq

/-- Whether the attempt threw (landed in the `catch` block). -/
def AttemptOutcome.isErr : AttemptOutcome → Bool
  | .ok _ _ => false
  | .err _ => true

inductive DeliveryStatus where
  | pending
  | success
  | failed
  deriving Repr, DecidableEq

/-- The fields of a `WebhookDelivery` record that `attemptDelivery`
mutates (`lastAttempt`, a wall-clock date, is omitted). -/
structure Delivery where
  status : DeliveryStatus
  attempts : ℕ
  response : Option (ℕ × String)
  deriving Repr, DecidableEq

inductive DeliveryEvent where
  | attemptStart (n : ℕ)
  | emitSuccess
  | emitFailed
  | delay (ms : ℕ)
  deriving Repr, DecidableEq

def DeliveryEvent.delayMs? : DeliveryEvent → Option ℕ
  | .delay ms => some ms
  | _ => none

def DeliveryEvent.isEmitFailed : DeliveryEvent → Bool
  | .emitFailed => true
  | _ => false

/-- The backoff waits of a trace, in order. -/
def delaysOf (tr : List DeliveryEvent) : List ℕ :=
  tr.filterMap DeliveryEvent.delayMs?

/-- How many `delivery:failed` notifications a trace emits. -/
def failedEmitCount (tr : List DeliveryEvent) : ℕ :=
  (tr.filter DeliveryEvent.isEmitFailed).length

structure WebhookConfig where
  maxRetries : ℕ
  retryDelay : ℕ
  timeout : ℕ
  deriving Repr, DecidableEq

namespace WebhookConfig

/-- The constructor defaults: `maxRetries = options.maxRetries || 3`,
`retryDelay = options.retryDelay || 1000`,
`timeout = options.timeout || 5000` (falsy `0` falls back). -/
def mk' (maxRetries? retryDelay? timeout? : Option ℕ) : WebhookConfig :=
  { maxRetries := match maxRetries? with
      | none => 3
      | some m => if m = 0 then 3 else m
    retryDelay := match retryDelay? with
      | none => 1000
      | some r => if r = 0 then 1000 else r
    timeout := match timeout? with
      | none => 5000
      | some t => if t = 0 then 5000 else t }

end WebhookConfig

/-- The `for (attempt = 0; attempt < maxRetries; attempt++)` loop of
`attemptDelivery`, structurally recursing on the number of iterations
left (`remaining = maxRetries - attempt`).  Each iteration stamps
`attempts = attempt + 1`; on success it stores the response, marks
`success` and emits; on a throw it marks `failed`, stores the error
message, emits `delivery:failed`, and — only when further iterations
remain (`attempt < maxRetries - 1`) — waits `retryDelay * 2^attempt`
before the next iteration. -/
def attemptLoopAux (rd : ℕ) (outcome : ℕ → AttemptOutcome) :
    ℕ → ℕ → Delivery → Delivery × List DeliveryEvent
  | 0, _, d => (d, [])
  | remaining + 1, attempt, d =>
    match outcome attempt with
    | .ok st body =>
      ({ d with
          attempts := attempt + 1
          status := .success
          response := some (st, body) },
        [.attemptStart (attempt + 1), .emitSuccess])
    | .err msg =>
      if remaining = 0 then
        ((attemptLoopAux rd outcome remaining (attempt + 1)
            { d with
              attempts := attempt + 1
              status := .failed
              response := some (0, msg) }).1,
          .attemptStart (attempt + 1) :: .emitFailed ::
            (attemptLoopAux rd outcome remaining (attempt + 1)
              { d with
                attempts := attempt + 1
                status := .failed
                response := some (0, msg) }).2)
      else
        ((attemptLoopAux rd outcome remaining (attempt + 1)
            { d with
              attempts := attempt + 1
              status := .failed
              response := some (0, msg) }).1,
          .attemptStart (attempt + 1) :: .emitFailed ::
            .delay (rd * 2 ^ attempt) ::
            (attemptLoopAux rd outcome remaining (attempt + 1)
              { d with
                attempts := attempt + 1
                status := .failed
                response := some (0, msg) }).2)

/-- One delivery run: the loop started at attempt 0 on the fresh
`pending` record with `attempts = 0`. -/
def attemptDelivery (cfg : WebhookConfig) (outcome : ℕ → AttemptOutcome) :
    Delivery × List DeliveryEvent :=
  attemptLoopAux cfg.retryDelay outcome cfg.maxRetries 0
    ⟨.pending, 0, none⟩

/-! ## Signature verification (src/utils/webhook.ts)

`WebhookManager.verifySignature` compares the given signature against
the hex HMAC-SHA256 of the payload under the secret.  SHA-256 and HMAC
are embedded in full over byte lists (`ℕ` values < 256, words reduced
mod 2^32).  JavaScript's `String.prototype.length` counts UTF-16 code
units, while `Buffer.from(s)` encodes UTF-8 bytes, so the two length
notions are modelled separately; `crypto.timingSafeEqual` throws a
`RangeError` when the byte lengths differ, modelled as `Except.error`. -/

def w32 (x : ℕ) : ℕ := x % 4294967296

def rotr (n x : ℕ) : ℕ := w32 ((x <<< (32 - n)) ||| (x >>> n))

def sha256K : List ℕ :=
  [1116352408, 1899447441, 3049323471, 3921009573, 961987163,
   1508970993, 2453635748, 2870763221, 3624381080, 310598401,
   607225278, 1426881987, 1925078388, 2162078206, 2614888103,
   3248222580, 3835390401, 4022224774, 264347078, 604807628,
   770255983, 1249150122, 1555081692, 1996064986, 2554220882,
   2821834349, 2952996808, 3210313671, 3336571891, 3584528711,
   113926993, 338241895, 666307205, 773529912, 1294757372,
   1396182291, 1695183700, 1986661051, 2177026350, 2456956037,
   2730485921, 2820302411, 3259730800, 3345764771, 3516065817,
   3600352804, 4094571909, 275423344, 430227734, 506948616,
   659060556, 883997877, 958139571, 1322822218, 1537002063,
   1747873779, 1955562222, 2024104815, 2227730452, 2361852424,
   2428436474, 2756734187, 3204031479, 3329325298]

def sha256H0 : List ℕ :=
  [1779033703, 3144134277, 1013904242, 2773480762,
   1359893119, 2600822924, 528734635, 1541459225]

def bytesToWords : List ℕ → List ℕ
  | b0 :: b1 :: b2 :: b3 :: rest =>
    (b0 * 16777216 + b1 * 65536 + b2 * 256 + b3) :: bytesToWords rest
  | _ => []

def toBytesBE (n : ℕ) (count : ℕ) : List ℕ :=
  (List.range count).map (fun i => (n >>> (8 * (count - 1 - i))) % 256)

def smallSigma0 (x : ℕ) : ℕ := (x >>> 3) ^^^ rotr 18 x ^^^ rotr 7 x

def smallSigma1 (x : ℕ) : ℕ := (x >>> 10) ^^^ rotr 19 x ^^^ rotr 17 x

def bigSigma0 (x : ℕ) : ℕ := rotr 22 x ^^^ rotr 13 x ^^^ rotr 2 x

def bigSigma1 (x : ℕ) : ℕ := rotr 25 x ^^^ rotr 11 x ^^^ rotr 6 x

/-- The SHA-256 message schedule: extend the 16 block words by the
given number of further words. -/
def extendW (acc : List ℕ) : ℕ → List ℕ
  | 0 => acc
  | f + 1 =>
    extendW (acc ++ [w32 (acc.getD (acc.length - 16) 0 +
      smallSigma0 (acc.getD (acc.length - 15) 0) +
      acc.getD (acc.length - 7) 0 +
      smallSigma1 (acc.getD (acc.length - 2) 0))]) f

abbrev Sha256Regs := ℕ × ℕ × ℕ × ℕ × ℕ × ℕ × ℕ × ℕ

def compressStep (st : Sha256Regs) (kw : ℕ × ℕ) : Sha256Regs :=
  let a := st.1; let b := st.2.1; let c := st.2.2.1; let d := st.2.2.2.1
  let e := st.2.2.2.2.1; let f := st.2.2.2.2.2.1
  let g := st.2.2.2.2.2.2.1; let h := st.2.2.2.2.2.2.2
  let ch := (g &&& (e ^^^ 4294967295)) ^^^ (e &&& f)
  let t1 := w32 (h + bigSigma1 e + ch + kw.1 + kw.2)
  let maj := (b &&& c) ^^^ ((a &&& b) ^^^ (a &&& c))
  let t2 := w32 (bigSigma0 a + maj)
  (w32 (t1 + t2), a, b, c, w32 (d + t1), e, f, g)

def compressBlock (h : List ℕ) (block : List ℕ) : List ℕ :=
  let ws := extendW (bytesToWords block) 48
  let r := (sha256K.zip ws).foldl compressStep
    (h.getD 0 0, h.getD 1 0, h.getD 2 0, h.getD 3 0,
     h.getD 4 0, h.getD 5 0, h.getD 6 0, h.getD 7 0)
  [w32 (h.getD 0 0 + r.1), w32 (h.getD 1 0 + r.2.1),
   w32 (h.getD 2 0 + r.2.2.1), w32 (h.getD 3 0 + r.2.2.2.1),
   w32 (h.getD 4 0 + r.2.2.2.2.1), w32 (h.getD 5 0 + r.2.2.2.2.2.1),
   w32 (h.getD 6 0 + r.2.2.2.2.2.2.1), w32 (h.getD 7 0 + r.2.2.2.2.2.2.2)]

def foldBlocks : ℕ → List ℕ → List ℕ → List ℕ
  | 0, h, _ => h
  | f + 1, h, bytes =>
    foldBlocks f (compressBlock h (bytes.take 64)) (bytes.drop 64)

/-- SHA-256 of a byte string (verified below against FIPS 180-4 test
vectors). -/
def sha256Bytes (msg : List ℕ) : List ℕ :=
  let padded := msg ++ 128 :: List.replicate ((119 - msg.length % 64) % 64) 0
    ++ toBytesBE (8 * msg.length) 8
  (foldBlocks (padded.length / 64) sha256H0 padded).flatMap
    (fun w => toBytesBE w 4)

/-- HMAC-SHA256 (RFC 2104) with a 64-byte block size. -/
def hmacSha256 (key msg : List ℕ) : List ℕ :=
  let key' := if 64 < key.length then sha256Bytes key else key
  let key64 := key' ++ List.replicate (64 - key'.length) 0
  sha256Bytes ((key64.map (fun b => b ^^^ 92)) ++
    sha256Bytes ((key64.map (fun b => b ^^^ 54)) ++ msg))

/-- One lowercase hex digit: codepoint 48 is `0`, 97 is `a`. -/
def hexDigit (n : ℕ) : Char :=
  if n < 10 then Char.ofNat (48 + n) else Char.ofNat (87 + n)

/-- `.digest('hex')`: lowercase hex, two characters per byte. -/
def toHex (bytes : List ℕ) : String :=
  String.mk (bytes.flatMap (fun b => [hexDigit (b / 16), hexDigit (b % 16)]))

/-- UTF-8 encoding of one character, as `Buffer.from` performs it. -/
def charUtf8 (c : Char) : List ℕ :=
  let v := c.toNat
  if v < 128 then [v]
  else if v < 2048 then [192 + v / 64, 128 + v % 64]
  else if v < 65536 then
    [224 + v / 4096, 128 + (v / 64) % 64, 128 + v % 64]
  else
    [240 + v / 262144, 128 + (v / 4096) % 64, 128 + (v / 64) % 64,
     128 + v % 64]

def strUtf8 (s : String) : List ℕ := s.data.flatMap charUtf8

/-- JavaScript's `String.prototype.length`: UTF-16 code units (a
character beyond the basic multilingual plane counts twice). -/
def utf16Length (s : String) : ℕ :=
  (s.data.map (fun c => if c.toNat < 65536 then 1 else 2)).sum

/-- `crypto.timingSafeEqual`: throws a `RangeError` when the buffers
have different byte lengths, otherwise compares contents. -/
def timingSafeEqual (a b : List ℕ) : Except String Bool :=
  if a.length ≠ b.length then
    .error "RangeError: Input buffers must have the same byte length"
  else .ok (a == b)

namespace WebhookManager

/-- `generateSignature`: hex HMAC-SHA256 of the payload keyed by the
secret. -/
def generateSignature (payload secret : String) : String :=
  toHex (hmacSha256 (strUtf8 secret) (strUtf8 payload))

/-- `WebhookManager.verifySignature`: recompute the expected hex
HMAC, compare string lengths (UTF-16 units) first and return `false`
on mismatch, then run `crypto.timingSafeEqual` over the UTF-8 buffers
of both strings. -/
def verifySignature (payload signature secret : String) :
    Except String Bool :=
  let expected := toHex (hmacSha256 (strUtf8 secret) (strUtf8 payload))
  if utf16Length signature ≠ utf16Length expected then .ok false
  else timingSafeEqual (strUtf8 signature) (strUtf8 expected)

end WebhookManager

namespace RateLimiter

theorem refill_config (s : RateLimiter) (now : ℚ) :
    (s.refill now).maxTokens = s.maxTokens ∧
      (s.refill now).refillRate = s.refillRate ∧
      (s.refill now).refillInterval = s.refillInterval ∧
      (s.refill now).lastRefill = now := by
  simp [refill]

theorem refill_inv (s : RateLimiter) (now : ℚ) (hwf : RLWF s)
    (hinv : RLInv s) (ht : s.lastRefill ≤ now) : RLInv (s.refill now) := by
  obtain ⟨hmax, hrate, hint⟩ := hwf
  obtain ⟨h0, h1⟩ := hinv
  constructor
  · have hadd : 0 ≤ (now - s.lastRefill) / s.refillInterval * s.refillRate := by
      apply mul_nonneg _ hrate
      exact div_nonneg (by linarith) (le_of_lt hint)
    simp only [refill]
    exact le_min hmax (by linarith)
  · simp only [refill]
    exact min_le_left _ _

theorem tryConsume_inv (s : RateLimiter) (n now : ℚ) (hwf : RLWF s)
    (hinv : RLInv s) (ht : s.lastRefill ≤ now) (hn : 0 ≤ n) :
    RLInv (s.tryConsume n now).2 := by
  obtain ⟨h0, h1⟩ := s.refill_inv now hwf hinv ht
  rw [tryConsume]
  split
  · next h =>
    exact ⟨sub_nonneg.mpr h, by simp only; linarith⟩
  · exact ⟨h0, h1⟩

theorem tryConsume_snd_config (s : RateLimiter) (n now : ℚ) :
    (s.tryConsume n now).2.maxTokens = s.maxTokens ∧
      (s.tryConsume n now).2.refillRate = s.refillRate ∧
      (s.tryConsume n now).2.refillInterval = s.refillInterval ∧
      (s.tryConsume n now).2.lastRefill = now := by
  rw [tryConsume]
  split <;> simp [refill]

theorem tryConsume_wf (s : RateLimiter) (n now : ℚ) (hwf : RLWF s) :
    RLWF (s.tryConsume n now).2 := by
  obtain ⟨h1, h2, h3, _⟩ := s.tryConsume_snd_config n now
  exact ⟨h1 ▸ hwf.1, h2 ▸ hwf.2.1, h3 ▸ hwf.2.2⟩

theorem consumeRun_props (n : ℚ) (hn : 0 ≤ n) (polls : List ℚ) :
    ∀ s : RateLimiter, RLWF s → RLInv s →
      List.Sorted (· ≤ ·) (s.lastRefill :: polls) →
      RLWF (s.consumeRun n polls) ∧ RLInv (s.consumeRun n polls) ∧
        ((s.consumeRun n polls).lastRefill = s.lastRefill ∨
          (s.consumeRun n polls).lastRefill ∈ polls) := by
  induction polls with
  | nil => exact fun s hwf hinv _ => ⟨hwf, hinv, Or.inl rfl⟩
  | cons t ts ih =>
    intro s hwf hinv hsorted
    rw [List.sorted_cons] at hsorted
    obtain ⟨hle, hsorted'⟩ := hsorted
    have hst : s.lastRefill ≤ t := hle t (by simp)
    have hwf' : RLWF (s.tryConsume n t).2 := s.tryConsume_wf n t hwf
    have hinv' : RLInv (s.tryConsume n t).2 :=
      s.tryConsume_inv n t hwf hinv hst hn
    have hlr : (s.tryConsume n t).2.lastRefill = t :=
      (s.tryConsume_snd_config n t).2.2.2
    show RLWF (consumeRun s n (t :: ts)) ∧ _
    unfold consumeRun
    by_cases hb : (s.tryConsume n t).1
    · simp only [hb, if_pos]
      exact ⟨hwf', hinv', Or.inr (by simp [hlr])⟩
    · simp only [hb, if_neg, Bool.false_eq_true, not_false_iff]
      have hs' : List.Sorted (· ≤ ·) ((s.tryConsume n t).2.lastRefill :: ts) := by
        rw [hlr]; exact hsorted'
      obtain ⟨hw, hi, ho⟩ := ih (s.tryConsume n t).2 hwf' hinv' hs'
      refine ⟨hw, hi, ?_⟩
      rcases ho with h | h
      · exact Or.inr (by rw [h, hlr]; simp)
      · exact Or.inr (List.mem_cons_of_mem _ h)

end RateLimiter

/-- Single-step preservation: a well-formed bucket satisfying the
invariant still satisfies it after any one operation whose requested
amount is nonnegative and whose observation times do not precede
`lastRefill`; the new `lastRefill` is either unchanged or one of the
operation's times. -/
theorem rlStep_props (s : RateLimiter) (op : RLOp) (hwf : RLWF s)
    (hinv : RLInv s)
    (hsorted : List.Sorted (· ≤ ·) (s.lastRefill :: op.times))
    (hamt : op.amountOk) :
    RLWF (rlStep s op) ∧ RLInv (rlStep s op) ∧
      ((rlStep s op).lastRefill = s.lastRefill ∨
        (rlStep s op).lastRefill ∈ op.times) := by
  cases op with
  | tryConsume n now =>
    rw [List.sorted_cons] at hsorted
    have hst : s.lastRefill ≤ now := hsorted.1 now (by simp [RLOp.times])
    refine ⟨s.tryConsume_wf n now hwf,
      s.tryConsume_inv n now hwf hinv hst hamt, Or.inr ?_⟩
    show (s.tryConsume n now).2.lastRefill ∈ _
    rw [(s.tryConsume_snd_config n now).2.2.2]
    simp [RLOp.times]
  | consume n polls =>
    exact RateLimiter.consumeRun_props n hamt polls s hwf hinv hsorted
  | getWaitTime n now =>
    rw [List.sorted_cons] at hsorted
    have hst : s.lastRefill ≤ now := hsorted.1 now (by simp [RLOp.times])
    have h := s.refill_inv now hwf hinv hst
    have hsnd : (s.getWaitTime n now).2 = s.refill now := by
      rw [RateLimiter.getWaitTime]; split <;> rfl
    refine ⟨?_, ?_, Or.inr ?_⟩
    · show RLWF (s.getWaitTime n now).2
      rw [hsnd]
      exact ⟨by simpa [RateLimiter.refill] using hwf.1,
        by simpa [RateLimiter.refill] using hwf.2.1,
        by simpa [RateLimiter.refill] using hwf.2.2⟩
    · show RLInv (s.getWaitTime n now).2
      rw [hsnd]; exact h
    · show (s.getWaitTime n now).2.lastRefill ∈ _
      rw [hsnd]
      simp [RLOp.times, RateLimiter.refill]
  | getTokens now =>
    rw [List.sorted_cons] at hsorted
    have hst : s.lastRefill ≤ now := hsorted.1 now (by simp [RLOp.times])
    have h := s.refill_inv now hwf hinv hst
    refine ⟨?_, ?_, Or.inr ?_⟩
    · show RLWF (s.refill now)
      exact ⟨by simpa [RateLimiter.refill] using hwf.1,
        by simpa [RateLimiter.refill] using hwf.2.1,
        by simpa [RateLimiter.refill] using hwf.2.2⟩
    · exact h
    · show (s.refill now).lastRefill ∈ _
      simp [RLOp.times, RateLimiter.refill]
  | reset now =>
    exact ⟨by simpa [rlStep, RateLimiter.reset, RLWF] using hwf,
      ⟨by simpa [rlStep, RateLimiter.reset] using hwf.1,
        by simp [rlStep, RateLimiter.reset]⟩,
      Or.inr (by simp [rlStep, RateLimiter.reset, RLOp.times])⟩

/-- Whole-run preservation of the bucket invariant. -/
theorem rlRun_inv (ops : List RLOp) :
    ∀ s : RateLimiter, RLWF s → RLInv s →
      List.Sorted (· ≤ ·) (s.lastRefill :: ops.flatMap RLOp.times) →
      (∀ op ∈ ops, op.amountOk) → RLInv (rlRun s ops) := by
  induction ops with
  | nil => exact fun s _ hinv _ _ => hinv
  | cons op rest ih =>
    intro s hwf hinv hsorted hamt
    rw [List.flatMap_cons] at hsorted
    rw [List.sorted_cons] at hsorted
    obtain ⟨hhead, htail⟩ := hsorted
    have hsort_op : List.Sorted (· ≤ ·) (s.lastRefill :: op.times) := by
      rw [List.sorted_cons]
      refine ⟨fun t ht => hhead t (List.mem_append_left _ ht), ?_⟩
      exact htail.sublist (List.sublist_append_left _ _)
    obtain ⟨hwf', hinv', hlr⟩ :=
      rlStep_props s op hwf hinv hsort_op (hamt op (by simp))
    have hpair := (List.pairwise_append.mp htail).2.2
    have hsort' : List.Sorted (· ≤ ·)
        ((rlStep s op).lastRefill :: rest.flatMap RLOp.times) := by
      rw [List.sorted_cons]
      refine ⟨fun t ht => ?_, (List.pairwise_append.mp htail).2.1⟩
      rcases hlr with h | h
      · rw [h]; exact hhead t (List.mem_append_right _ ht)
      · exact hpair _ h t ht
    exact ih (rlStep s op) hwf' hinv' hsort'
      (fun o ho => hamt o (List.mem_cons_of_mem _ ho))

/-- C1 (counterexample): the claim quantifies over "any argument
values", but `tryConsume` with a negative amount pushes the token
count above `maxTokens`: a fresh bucket with `maxTokens = 10` answers
`tryConsume(-1)` by setting `tokens = 11 > 10`, violating
`0 <= tokens <= capacity`. -/
theorem C1_counterexample :
    ¬ RLInv ((RateLimiter.mk' 10 1 none 0).tryConsume (-1) 0).2 := by
  have h : ((RateLimiter.mk' 10 1 none 0).tryConsume (-1) 0).2.tokens = 11 := by
    norm_num [RateLimiter.mk', RateLimiter.tryConsume, RateLimiter.refill]
  have hmax : ((RateLimiter.mk' 10 1 none 0).tryConsume (-1) 0).2.maxTokens
      = 10 := by
    norm_num [RateLimiter.mk', RateLimiter.tryConsume, RateLimiter.refill]
  intro hinv
  rw [RLInv, h, hmax] at hinv
  exact absurd hinv.2 (by norm_num)

/-- C1 (amended): for every sequence of `RateLimiter` operations
(`tryConsume`, `consume`, `getWaitTime`, `getTokens`, `reset`) whose
requested consumption amounts are nonnegative, run under a
non-decreasing wall clock starting no earlier than the bucket's
`lastRefill`, a well-formed bucket (`0 ≤ maxTokens`, `0 ≤ refillRate`,
`0 < refillInterval`) satisfying `0 ≤ tokens ≤ maxTokens` still
satisfies it at every observation point, i.e. after every prefix of
the sequence. -/
theorem C1_tokens_within_capacity (s : RateLimiter) (ops : List RLOp)
    (hwf : RLWF s) (hinv : RLInv s)
    (hsorted : List.Sorted (· ≤ ·) (s.lastRefill :: ops.flatMap RLOp.times))
    (hamt : ∀ op ∈ ops, op.amountOk) :
    ∀ pre suf, ops = pre ++ suf → RLInv (rlRun s pre) := by
  intro pre suf heq
  subst heq
  apply rlRun_inv pre s hwf hinv
  · rw [List.flatMap_append] at hsorted
    exact hsorted.sublist
      ((List.sublist_append_left _ _).cons₂ s.lastRefill)
  · exact fun op hop => hamt op (List.mem_append_left _ hop)

/-- C1 (witness): the amended theorem applied to a concrete bucket
(`maxTokens = 10`, `refillRate = 2`) and a concrete three-operation
run. -/
theorem C1_tokens_within_capacity_witness :
    RLInv (rlRun (RateLimiter.mk' 10 2 none 0)
      [RLOp.tryConsume 1 0, RLOp.reset 5, RLOp.tryConsume 2 6]) :=
  C1_tokens_within_capacity (RateLimiter.mk' 10 2 none 0)
    [RLOp.tryConsume 1 0, RLOp.reset 5, RLOp.tryConsume 2 6]
    (by norm_num [RateLimiter.mk', RLWF])
    (by norm_num [RateLimiter.mk', RLInv])
    (by simp [RateLimiter.mk', RLOp.times, List.sorted_cons]; norm_num)
    (by intro op hop; fin_cases hop <;> norm_num [RLOp.amountOk])
    [RLOp.tryConsume 1 0, RLOp.reset 5, RLOp.tryConsume 2 6] [] (by simp)

/-- C6: `tryConsume` fails closed.  If after the lazy refill fewer
than `n` tokens are available, the call returns `false` and the state
is exactly the refilled state (zero tokens deducted); if at least `n`
are available it returns `true` and deducts exactly `n`. -/
theorem C6_tryConsume_fails_closed (s : RateLimiter) (n now : ℚ) :
    ((s.tryConsume n now).1 = false →
      (s.tryConsume n now).2 = s.refill now ∧ (s.refill now).tokens < n) ∧
    ((s.tryConsume n now).1 = true →
      (s.tryConsume n now).2.tokens = (s.refill now).tokens - n ∧
        n ≤ (s.refill now).tokens) := by
  rw [RateLimiter.tryConsume]
  split
  · next h =>
    exact ⟨fun hf => by simp at hf, fun _ => ⟨rfl, h⟩⟩
  · next h =>
    exact ⟨fun _ => ⟨rfl, not_le.mp h⟩, fun ht => by simp at ht⟩

/-- C6 (witness): on a fresh `maxTokens = 10` bucket, `tryConsume 20`
fails and leaves the refilled state untouched, while `tryConsume 3`
deducts exactly 3. -/
theorem C6_tryConsume_fails_closed_witness :
    ((RateLimiter.mk' 10 1 none 0).tryConsume 20 0).2 =
        (RateLimiter.mk' 10 1 none 0).refill 0 ∧
      ((RateLimiter.mk' 10 1 none 0).tryConsume 3 0).2.tokens =
        ((RateLimiter.mk' 10 1 none 0).refill 0).tokens - 3 :=
  ⟨((C6_tryConsume_fails_closed (RateLimiter.mk' 10 1 none 0) 20 0).1
      (by norm_num [RateLimiter.mk', RateLimiter.tryConsume,
        RateLimiter.refill])).1,
    ((C6_tryConsume_fails_closed (RateLimiter.mk' 10 1 none 0) 3 0).2
      (by norm_num [RateLimiter.mk', RateLimiter.tryConsume,
        RateLimiter.refill])).1⟩

/-! ## Cache lemmas -/

theorem mapLookup_mapSet_self (k : String) (e : CacheEntry T)
    (l : List (String × CacheEntry T)) :
    mapLookup k (mapSet k e l) = some e := by
  induction l with
  | nil => simp [mapSet, mapLookup]
  | cons p rest ih =>
    obtain ⟨k', e'⟩ := p
    by_cases h : k' = k
    · simp [mapSet, h, mapLookup]
    · simp [mapSet, h, mapLookup, ih]

theorem mapLookup_eq_none (k : String) (l : List (String × CacheEntry T))
    (h : k ∉ l.map Prod.fst) : mapLookup k l = none := by
  induction l with
  | nil => rfl
  | cons p rest ih =>
    obtain ⟨k', e'⟩ := p
    simp only [List.map_cons, List.mem_cons] at h
    push_neg at h
    rw [mapLookup, if_neg (fun he => h.1 he.symm)]
    exact ih h.2

theorem mapDelete_sublist (k : String) (l : List (String × CacheEntry T)) :
    List.Sublist (mapDelete k l) l := by
  induction l with
  | nil => exact List.Sublist.refl _
  | cons p rest ih =>
    obtain ⟨k', e'⟩ := p
    rw [mapDelete]
    split
    · exact List.sublist_cons_self _ _
    · exact ih.cons₂ _

theorem mapLookup_mapDelete_self (k : String)
    (l : List (String × CacheEntry T)) (h : (l.map Prod.fst).Nodup) :
    mapLookup k (mapDelete k l) = none := by
  induction l with
  | nil => rfl
  | cons p rest ih =>
    obtain ⟨k', e'⟩ := p
    simp only [List.map_cons, List.nodup_cons] at h
    rw [mapDelete]
    split
    · next he => exact mapLookup_eq_none k rest (he ▸ h.1)
    · next he => rw [mapLookup, if_neg he]; exact ih h.2

theorem map_fst_mapSet (k : String) (e : CacheEntry T)
    (l : List (String × CacheEntry T)) :
    (mapSet k e l).map Prod.fst =
      if k ∈ l.map Prod.fst then l.map Prod.fst
      else l.map Prod.fst ++ [k] := by
  induction l with
  | nil => simp [mapSet]
  | cons p rest ih =>
    obtain ⟨k', e'⟩ := p
    by_cases h : k' = k
    · simp [mapSet, h]
    · have hne : ¬ k = k' := fun he => h he.symm
      by_cases hm : k ∈ rest.map Prod.fst
      · simp [mapSet, h, ih, hm, hne]
      · simp [mapSet, h, ih, hm, hne]

theorem nodup_mapSet (k : String) (e : CacheEntry T)
    (l : List (String × CacheEntry T)) (h : (l.map Prod.fst).Nodup) :
    ((mapSet k e l).map Prod.fst).Nodup := by
  rw [map_fst_mapSet]
  split
  · exact h
  · next hm =>
    simp only [List.nodup_append, List.nodup_cons, List.not_mem_nil,
      not_false_iff, List.nodup_nil, and_true, true_and]
    exact ⟨h, fun a ha (hb : a ∈ [k]) => by
      rw [List.mem_singleton] at hb
      exact hm (hb ▸ ha)⟩

namespace Cache

theorem delete_entries_of_lookup (c : Cache T) (k : String) (e : CacheEntry T)
    (hl : mapLookup k c.entries = some e) :
    (c.delete k).2.1.entries = mapDelete k c.entries ∧
      (c.delete k).2.2 = [(k, e.value)] ∧ (c.delete k).1 = true := by
  rw [delete, hl]
  exact ⟨rfl, rfl, rfl⟩

theorem delete_config (c : Cache T) (k : String) :
    (c.delete k).2.1.ttl = c.ttl ∧ (c.delete k).2.1.maxSize = c.maxSize := by
  rw [delete]
  cases mapLookup k c.entries with
  | none => exact ⟨rfl, rfl⟩
  | some e => exact ⟨rfl, rfl⟩

theorem wf_delete (c : Cache T) (k : String) (h : CacheWF c) :
    CacheWF (c.delete k).2.1 := by
  rw [delete]
  cases mapLookup k c.entries with
  | none => exact h
  | some e =>
    show ((mapDelete k c.entries).map Prod.fst).Nodup
    exact h.sublist ((mapDelete_sublist k c.entries).map Prod.fst)

theorem wf_evictLRU (c : Cache T) (h : CacheWF c) : CacheWF c.evictLRU.1 := by
  rw [evictLRU]
  cases findLRU none c.entries with
  | none => exact h
  | some p =>
    rw [Option.elim_some]
    by_cases hk : p.1 = ""
    · rw [if_pos hk]; exact h
    · rw [if_neg hk]; exact c.wf_delete p.1 h

theorem wf_set (c : Cache T) (k : String) (v : T) (ttl? : Option ℤ) (now : ℤ)
    (h : CacheWF c) : CacheWF (c.set k v ttl? now).1 := by
  rw [set]
  split
  · exact nodup_mapSet _ _ _ (c.wf_evictLRU h)
  · exact nodup_mapSet _ _ _ h

theorem set_lookup_self (c : Cache T) (k : String) (v : T) (ttl? : Option ℤ)
    (now : ℤ) :
    mapLookup k (c.set k v ttl? now).1.entries =
      some ⟨v, now + c.effTtl ttl?, now⟩ := by
  rw [set]
  split <;> exact mapLookup_mapSet_self _ _ _

theorem evictLRU_config (c : Cache T) :
    c.evictLRU.1.ttl = c.ttl ∧ c.evictLRU.1.maxSize = c.maxSize := by
  rw [evictLRU]
  cases findLRU none c.entries with
  | none => exact ⟨rfl, rfl⟩
  | some p =>
    rw [Option.elim_some]
    by_cases hk : p.1 = ""
    · rw [if_pos hk]; exact ⟨rfl, rfl⟩
    · rw [if_neg hk]; exact c.delete_config p.1

theorem set_config (c : Cache T) (k : String) (v : T) (ttl? : Option ℤ)
    (now : ℤ) :
    (c.set k v ttl? now).1.ttl = c.ttl ∧
      (c.set k v ttl? now).1.maxSize = c.maxSize := by
  rw [set]
  split
  · exact c.evictLRU_config
  · exact ⟨rfl, rfl⟩

theorem get_present (c : Cache T) (k : String) (now : ℤ) (e : CacheEntry T)
    (hl : mapLookup k c.entries = some e) (hexp : ¬ e.expires < now) :
    (c.get k now).1 = some e.value := by
  rw [get, hl]
  simp [hexp]

theorem get_expired (c : Cache T) (k : String) (now : ℤ) (e : CacheEntry T)
    (hwf : CacheWF c) (hl : mapLookup k c.entries = some e)
    (hexp : e.expires < now) :
    (c.get k now).1 = none ∧
      mapLookup k (c.get k now).2.1.entries = none := by
  rw [get, hl]
  rw [Option.elim_some, if_pos hexp]
  refine ⟨rfl, ?_⟩
  show mapLookup k (c.delete k).2.1.entries = none
  rw [(c.delete_entries_of_lookup k e hl).1]
  exact mapLookup_mapDelete_self k c.entries hwf

end Cache

/-! ## Cache claims -/

/-- C2 (code bug): at `maxSize = 1` with the single entry keyed by the
empty string, `set` of a new key is supposed to evict that
least-recently-used entry, but `evictLRU`'s `if (oldestKey)` treats
the empty-string key as falsy and evicts nothing: the insertion goes
through, no eviction event fires, the empty key is still present and
the size reaches 2 > maxSize. -/
theorem C2_empty_key_eviction_bug :
    ((((Cache.mk' none (some 1) : Cache ℕ).set "" 1 none 0).1.set
          "x" 2 none 0).1.size = 2 ∧
      (((Cache.mk' none (some 1) : Cache ℕ).set "" 1 none 0).1.set
          "x" 2 none 0).1.maxSize = 1) ∧
    (((Cache.mk' none (some 1) : Cache ℕ).set "" 1 none 0).1.set
        "x" 2 none 0).2 = [] ∧
    mapLookup "" ((((Cache.mk' none (some 1) : Cache ℕ).set "" 1 none 0).1.set
        "x" 2 none 0).1.entries) ≠ none := by
  decide

/-- C5: after `set(k, v, ttl)` with a nonzero per-entry TTL at time
`t0` (on a cache whose map binds no key twice), `get(k)` strictly
before `t0 + ttl` returns `v`; strictly after, it returns absent and
deletes the entry as a side effect (lazy expiry); and `get` of a key
that was never set returns absent. -/
theorem C5_ttl_semantics {T : Type} (c : Cache T) (k k' : String) (v : T)
    (ttl t0 t1 : ℤ) (hwf : CacheWF c) (httl : ttl ≠ 0) :
    (t1 - t0 < ttl → (((c.set k v (some ttl) t0).1).get k t1).1 = some v) ∧
    (ttl < t1 - t0 →
      (((c.set k v (some ttl) t0).1).get k t1).1 = none ∧
        mapLookup k ((((c.set k v (some ttl) t0).1).get k t1).2.1.entries)
          = none) ∧
    (mapLookup k' c.entries = none → (c.get k' t1).1 = none) := by
  have heff : c.effTtl (some ttl) = ttl := by
    rw [Cache.effTtl]; exact if_neg httl
  have hl : mapLookup k (c.set k v (some ttl) t0).1.entries =
      some ⟨v, t0 + ttl, t0⟩ := by
    rw [c.set_lookup_self k v (some ttl) t0, heff]
  have hwf' : CacheWF (c.set k v (some ttl) t0).1 :=
    c.wf_set k v (some ttl) t0 hwf
  refine ⟨fun h => ?_, fun h => ?_, fun h => ?_⟩
  · exact Cache.get_present _ k t1 _ hl (by simp only; omega)
  · exact Cache.get_expired _ k t1 _ hwf' hl (by simp only; omega)
  · rw [Cache.get, h]; rfl

/-- C5 (witness): with the default cache, `set("a", 7, ttl=500)` at
time 0 is visible at time 100, gone (and physically deleted) at time
600, and a never-set key "b" reads as absent. -/
theorem C5_ttl_semantics_witness :
    ((((Cache.mk' none none : Cache ℕ).set "a" 7 (some 500) 0).1.get
        "a" 100).1 = some 7) ∧
    ((((Cache.mk' none none : Cache ℕ).set "a" 7 (some 500) 0).1.get
        "a" 600).1 = none) ∧
    ((Cache.mk' none none : Cache ℕ).get "b" 0).1 = none :=
  ⟨(C5_ttl_semantics (Cache.mk' none none : Cache ℕ) "a" "b" 7 500 0 100
      (by decide) (by decide)).1 (by decide),
    ((C5_ttl_semantics (Cache.mk' none none : Cache ℕ) "a" "b" 7 500 0 600
      (by decide) (by decide)).2.1 (by decide)).1,
    (C5_ttl_semantics (Cache.mk' none none : Cache ℕ) "a" "b" 7 500 0 0
      (by decide) (by decide)).2.2 (by decide)⟩

/-- C8: `set(key, value, 0)` does not create an immediately-expired
entry: the falsy TTL argument falls back to the cache default, so the
stored entry expires at `t0 + defaultTtl` and `get` still returns the
value at any time not past that. -/
theorem C8_zero_ttl_falls_back {T : Type} (c : Cache T) (k : String) (v : T)
    (t0 t1 : ℤ) (ht : ¬ t0 + c.ttl < t1) :
    mapLookup k (c.set k v (some 0) t0).1.entries =
      some ⟨v, t0 + c.ttl, t0⟩ ∧
    ((c.set k v (some 0) t0).1.get k t1).1 = some v := by
  have heff : c.effTtl (some 0) = c.ttl := by
    rw [Cache.effTtl]; exact if_pos rfl
  have hl := c.set_lookup_self k v (some 0) t0
  rw [heff] at hl
  exact ⟨hl, Cache.get_present _ k t1 _ hl ht⟩

/-- C8 (witness): `set("k", 1, ttl=0)` on the default cache (default
TTL 60000) keeps the value readable at time 59000. -/
theorem C8_zero_ttl_falls_back_witness :
    mapLookup "k" (((Cache.mk' none none : Cache ℕ).set "k" 1 (some 0)
        0).1.entries) = some ⟨1, 0 + (Cache.mk' none none : Cache ℕ).ttl, 0⟩ ∧
    ((((Cache.mk' none none : Cache ℕ).set "k" 1 (some 0) 0).1.get
        "k" 59000).1 = some 1) :=
  C8_zero_ttl_falls_back (Cache.mk' none none : Cache ℕ) "k" 1 0 59000
    (by decide)

/-- C9: `set` of a key already present in the map overwrites the value
without emitting any eviction event (its size/newness guard is false,
so `evictLRU` is not called and `onEvict` is not invoked for the
replaced value); removal via `delete` is what reports the stored value
to `onEvict`. -/
theorem C9_overwrite_no_evict {T : Type} (c : Cache T) (k : String) (v : T)
    (ttl? : Option ℤ) (now : ℤ) (e0 : CacheEntry T)
    (hpresent : mapLookup k c.entries = some e0) :
    (c.set k v ttl? now).2 = [] ∧
      mapLookup k (c.set k v ttl? now).1.entries =
        some ⟨v, now + c.effTtl ttl?, now⟩ ∧
      (c.delete k).2.2 = [(k, e0.value)] := by
  have hguard : ¬ (c.maxSize ≤ c.entries.length ∧
      (mapLookup k c.entries).isNone) := by
    rintro ⟨-, hnone⟩
    rw [hpresent] at hnone
    simp at hnone
  refine ⟨?_, c.set_lookup_self k v ttl? now,
    (c.delete_entries_of_lookup k e0 hpresent).2.1⟩
  rw [Cache.set, if_neg hguard]

/-- C9 (witness): overwriting key "a" (old value 1) with 2 emits no
eviction event and stores 2, while `delete "a"` reports `("a", 1)`. -/
theorem C9_overwrite_no_evict_witness :
    (((Cache.mk' none none : Cache ℕ).set "a" 1 none 0).1.set
        "a" 2 none 5).2 = [] ∧
      mapLookup "a" ((((Cache.mk' none none : Cache ℕ).set "a" 1 none
          0).1.set "a" 2 none 5).1.entries) =
        some ⟨2, 5 + (((Cache.mk' none none : Cache ℕ).set "a" 1 none
          0).1).effTtl none, 5⟩ ∧
      ((((Cache.mk' none none : Cache ℕ).set "a" 1 none 0).1).delete
          "a").2.2 = [("a", 1)] :=
  C9_overwrite_no_evict (((Cache.mk' none none : Cache ℕ).set "a" 1 none
      0).1) "a" 2 none 5 ⟨1, 60000, 0⟩ (by decide)

/-- C10: `size()` counts logically-expired entries (it is the raw map
size, the sum of the expired and unexpired entry counts), and
`stats()` reports the same size and lists every entry, an expired one
appearing with a negative `expiresIn`; neither filters or removes
anything. -/
theorem C10_size_stats_include_expired {T : Type} (c : Cache T) (now : ℤ)
    (k : String) (e : CacheEntry T) (hmem : (k, e) ∈ c.entries)
    (hexp : e.expires < now) :
    c.size = (c.entries.filter (fun p => decide (p.2.expires < now))).length +
        (c.entries.filter (fun p => ! decide (p.2.expires < now))).length ∧
      (c.stats now).size = c.size ∧
      (c.stats now).entries.length = c.size ∧
      (⟨k, e.expires - now, now - e.lastAccessed⟩ : StatsEntry) ∈
        (c.stats now).entries ∧
      e.expires - now < 0 := by
  refine ⟨List.length_eq_length_filter_add _, rfl, ?_, ?_, by omega⟩
  · show (c.entries.map _).length = c.entries.length
    exact List.length_map _ _
  · exact List.mem_map_of_mem _ hmem

/-- C10 (witness): a cache holding `("a", 5)` with TTL 100, observed
at time 200: `size` and `stats` still count the expired entry, which
is listed with `expiresIn = -100`. -/
theorem C10_size_stats_include_expired_witness :
    (((Cache.mk' (some 100) none : Cache ℕ).set "a" 5 none 0).1.stats
        200).entries.length =
      (((Cache.mk' (some 100) none : Cache ℕ).set "a" 5 none 0).1).size ∧
    (⟨"a", (100 : ℤ) - 200, 200 - 0⟩ : StatsEntry) ∈
      (((Cache.mk' (some 100) none : Cache ℕ).set "a" 5 none 0).1.stats
        200).entries :=
  ⟨(C10_size_stats_include_expired
      (((Cache.mk' (some 100) none : Cache ℕ).set "a" 5 none 0).1) 200
      "a" ⟨5, 100, 0⟩ (by decide) (by decide)).2.2.1,
    (C10_size_stats_include_expired
      (((Cache.mk' (some 100) none : Cache ℕ).set "a" 5 none 0).1) 200
      "a" ⟨5, 100, 0⟩ (by decide) (by decide)).2.2.2.1⟩

/-! ## Webhook lemmas -/

/-- When every attempt in range throws, the delivery loop ends
`failed` with `attempts = attempt + remaining`, waits
`retryDelay * 2^i` after every failed attempt except the last, emits
`delivery:failed` once per attempt, and its final event is the last
attempt's failure emission. -/
theorem attemptLoopAux_err_last (rd : ℕ) (outcome : ℕ → AttemptOutcome)
    (attempt : ℕ) (d : Delivery) (msg : String)
    (h : outcome attempt = .err msg) :
    attemptLoopAux rd outcome (0 + 1) attempt d =
      (⟨.failed, attempt + 1, some (0, msg)⟩,
        [.attemptStart (attempt + 1), .emitFailed]) := by
  simp [attemptLoopAux, h]

theorem attemptLoopAux_err_cons (rd : ℕ) (outcome : ℕ → AttemptOutcome)
    (attempt m' : ℕ) (d : Delivery) (msg : String)
    (h : outcome attempt = .err msg) :
    attemptLoopAux rd outcome (m' + 1 + 1) attempt d =
      ((attemptLoopAux rd outcome (m' + 1) (attempt + 1)
          ⟨.failed, attempt + 1, some (0, msg)⟩).1,
        .attemptStart (attempt + 1) :: .emitFailed ::
          .delay (rd * 2 ^ attempt) ::
          (attemptLoopAux rd outcome (m' + 1) (attempt + 1)
            ⟨.failed, attempt + 1, some (0, msg)⟩).2) := by
  simp [attemptLoopAux, h]

theorem attemptLoopAux_allFail (rd : ℕ) (outcome : ℕ → AttemptOutcome) :
    ∀ (remaining attempt : ℕ) (d : Delivery),
      (∀ i, attempt ≤ i → i < attempt + remaining →
        (outcome i).isErr = true) →
      0 < remaining →
      (attemptLoopAux rd outcome remaining attempt d).1.status = .failed ∧
      (attemptLoopAux rd outcome remaining attempt d).1.attempts =
        attempt + remaining ∧
      delaysOf (attemptLoopAux rd outcome remaining attempt d).2 =
        (List.range' attempt (remaining - 1)).map (fun i => rd * 2 ^ i) ∧
      failedEmitCount (attemptLoopAux rd outcome remaining attempt d).2 =
        remaining ∧
      (attemptLoopAux rd outcome remaining attempt d).2.getLast? =
        some .emitFailed := by
  intro remaining
  induction remaining with
  | zero => exact fun attempt d _ h0 => absurd h0 (by omega)
  | succ m ih =>
    intro attempt d hfail _
    have hout : (outcome attempt).isErr = true :=
      hfail attempt le_rfl (by omega)
    obtain ⟨msg, hmsg⟩ : ∃ msg, outcome attempt = .err msg := by
      cases h : outcome attempt with
      | ok st b => rw [h] at hout; simp [AttemptOutcome.isErr] at hout
      | err m' => exact ⟨m', rfl⟩
    cases m with
    | zero =>
      rw [attemptLoopAux_err_last rd outcome attempt d msg hmsg]
      refine ⟨rfl, rfl, ?_, ?_, rfl⟩
      · simp [delaysOf, DeliveryEvent.delayMs?, List.range']
      · simp [failedEmitCount, DeliveryEvent.isEmitFailed]
    | succ m' =>
      obtain ⟨ih1, ih2, ih3, ih4, ih5⟩ :=
        ih (attempt + 1) ⟨.failed, attempt + 1, some (0, msg)⟩
          (fun i h1 h2 => hfail i (by omega) (by omega)) (by omega)
      rw [attemptLoopAux_err_cons rd outcome attempt m' d msg hmsg]
      refine ⟨ih1, by rw [ih2]; omega, ?_, ?_, ?_⟩
      · simp only [delaysOf, List.filterMap_cons, DeliveryEvent.delayMs?]
        rw [show delaysOf (attemptLoopAux rd outcome (m' + 1) (attempt + 1)
            ⟨.failed, attempt + 1, some (0, msg)⟩).2 =
            List.filterMap DeliveryEvent.delayMs?
              (attemptLoopAux rd outcome (m' + 1) (attempt + 1)
                ⟨.failed, attempt + 1, some (0, msg)⟩).2 from rfl] at ih3
        rw [ih3]
        rw [show m' + 1 + 1 - 1 = m' + 1 from by omega,
          List.range'_succ attempt m' 1, List.map_cons,
          Nat.add_sub_cancel]
      · simp only [failedEmitCount] at ih4 ⊢
        simp only [List.filter_cons, DeliveryEvent.isEmitFailed,
          Bool.false_eq_true, if_false, if_true, List.length_cons,
          ite_true, ite_false]
        omega
      · cases hr : (attemptLoopAux rd outcome (m' + 1) (attempt + 1)
            ⟨.failed, attempt + 1, some (0, msg)⟩).2 with
        | nil => rw [hr] at ih5; simp at ih5
        | cons r rs =>
          rw [hr] at ih5
          rw [List.getLast?_cons_cons, List.getLast?_cons_cons,
            List.getLast?_cons_cons]
          exact ih5

/-- C4: a delivery whose attempt throws every time ends with status
`failed` and `attempts` equal to exactly `maxRetries`; the trace waits
`retryDelay * 2^i` between attempts `i+1` and `i+2` (for
`i = 0 … maxRetries-2`) and ends on the final failure emission, with
no wait after the final attempt. -/
theorem C4_failed_delivery_exhausts_retries (cfg : WebhookConfig)
    (outcome : ℕ → AttemptOutcome) (hmr : 0 < cfg.maxRetries)
    (hfail : ∀ i, i < cfg.maxRetries → (outcome i).isErr = true) :
    (attemptDelivery cfg outcome).1.status = .failed ∧
    (attemptDelivery cfg outcome).1.attempts = cfg.maxRetries ∧
    delaysOf (attemptDelivery cfg outcome).2 =
      (List.range (cfg.maxRetries - 1)).map
        (fun i => cfg.retryDelay * 2 ^ i) ∧
    (attemptDelivery cfg outcome).2.getLast? = some .emitFailed := by
  obtain ⟨h1, h2, h3, _, h5⟩ :=
    attemptLoopAux_allFail cfg.retryDelay outcome cfg.maxRetries 0
      ⟨.pending, 0, none⟩ (fun i _ h2 => hfail i (by omega)) hmr
  rw [List.range_eq_range']
  exact ⟨h1, by rw [attemptDelivery, h2]; omega,
    by rw [attemptDelivery, h3], by rw [attemptDelivery, h5]⟩

/-- C4 (witness): two always-failing attempts under
`maxRetries = 2, retryDelay = 100`. -/
theorem C4_failed_delivery_exhausts_retries_witness :
    (attemptDelivery ⟨2, 100, 5000⟩ (fun _ => .err "ECONNREFUSED")).1.status
        = .failed ∧
    (attemptDelivery ⟨2, 100, 5000⟩ (fun _ => .err "ECONNREFUSED")).1.attempts
        = 2 ∧
    delaysOf (attemptDelivery ⟨2, 100, 5000⟩
        (fun _ => .err "ECONNREFUSED")).2 =
      (List.range 1).map (fun i => 100 * 2 ^ i) :=
  ⟨(C4_failed_delivery_exhausts_retries ⟨2, 100, 5000⟩
      (fun _ => .err "ECONNREFUSED") (by decide) (fun i _ => rfl)).1,
    (C4_failed_delivery_exhausts_retries ⟨2, 100, 5000⟩
      (fun _ => .err "ECONNREFUSED") (by decide) (fun i _ => rfl)).2.1,
    (C4_failed_delivery_exhausts_retries ⟨2, 100, 5000⟩
      (fun _ => .err "ECONNREFUSED") (by decide) (fun i _ => rfl)).2.2.1⟩

/-- C7 (counterexample): with `maxRetries = 2` and both attempts
failing, the trace is
`[attempt 1, delivery:failed, wait 100, attempt 2, delivery:failed]`:
a `delivery:failed` notification is emitted right after the first
attempt, strictly before the retry runs, so not only upon
exhaustion. -/
theorem C7_counterexample :
    (attemptDelivery ⟨2, 100, 5000⟩ (fun _ => .err "boom")).2 =
      [.attemptStart 1, .emitFailed, .delay 100, .attemptStart 2,
        .emitFailed] ∧
    (attemptDelivery ⟨2, 100, 5000⟩ (fun _ => .err "boom")).2.take 2 =
      [.attemptStart 1, .emitFailed] := by
  decide

/-- C7 (amended): the dispatcher emits a `delivery:failed`
notification after every failed attempt — including attempts that
will still be retried — so when every attempt fails it emits exactly
`maxRetries` of them; the delivery does end terminally `failed` on
exhaustion, and the final trace event is the last attempt's failure
notification. -/
theorem C7_failed_emitted_every_attempt (cfg : WebhookConfig)
    (outcome : ℕ → AttemptOutcome) (hmr : 0 < cfg.maxRetries)
    (hfail : ∀ i, i < cfg.maxRetries → (outcome i).isErr = true) :
    failedEmitCount (attemptDelivery cfg outcome).2 = cfg.maxRetries ∧
    (attemptDelivery cfg outcome).1.status = .failed ∧
    (attemptDelivery cfg outcome).2.getLast? = some .emitFailed := by
  obtain ⟨h1, _, _, h4, h5⟩ :=
    attemptLoopAux_allFail cfg.retryDelay outcome cfg.maxRetries 0
      ⟨.pending, 0, none⟩ (fun i _ h2 => hfail i (by omega)) hmr
  exact ⟨by rw [attemptDelivery, h4], by rw [attemptDelivery, h1],
    by rw [attemptDelivery, h5]⟩

/-- C7 (witness): the amended theorem at `maxRetries = 3`,
`retryDelay = 50`, all attempts failing. -/
theorem C7_failed_emitted_every_attempt_witness :
    failedEmitCount (attemptDelivery ⟨3, 50, 1000⟩
        (fun _ => .err "ETIMEDOUT")).2 = 3 ∧
    (attemptDelivery ⟨3, 50, 1000⟩ (fun _ => .err "ETIMEDOUT")).1.status
        = .failed :=
  ⟨(C7_failed_emitted_every_attempt ⟨3, 50, 1000⟩
      (fun _ => .err "ETIMEDOUT") (by decide) (fun i _ => rfl)).1,
    (C7_failed_emitted_every_attempt ⟨3, 50, 1000⟩
      (fun _ => .err "ETIMEDOUT") (by decide) (fun i _ => rfl)).2.1⟩

/-! ## Signature verification claims -/

/-- Sanity anchor: the embedded SHA-256 matches the FIPS 180-4 test
vector for the empty message. -/
theorem sha256_empty_vector :
    toHex (sha256Bytes []) =
      "e3b0c44298fc1c149afbf4c8996fb92427ae41e4649b934ca495991b7852b855" := by
  set_option maxRecDepth 10000 in rfl

/-- Sanity anchor: the embedded HMAC-SHA256 matches the RFC 2104-style
test vector (key "key", quick-brown-fox message). -/
theorem hmacSha256_vector :
    toHex (hmacSha256 (strUtf8 "key")
        (strUtf8 "The quick brown fox jumps over the lazy dog")) =
      "f7bc83f430538424b13298e6aa6fb143ef4d59a14946175997479dbc2d1a3cd8" := by
  set_option maxRecDepth 10000 in rfl

/-- For a signature freshly computed over the same payload and secret,
`verifySignature` returns `.ok true` (this half of the claim holds). -/
theorem verifySignature_fresh_ok (p s : String) :
    WebhookManager.verifySignature p (WebhookManager.generateSignature p s) s
      = .ok true := by
  simp [WebhookManager.verifySignature, WebhookManager.generateSignature,
    timingSafeEqual]

/-- C3 (code bug, evaluated at the failing input): for the signature
made of 64 copies of `é` — 64 UTF-16 units, so it passes the
`signature.length !== expectedSignature.length` check against the
64-character hex digest, but 128 UTF-8 bytes — `verifySignature "x"
sig "k"` reaches `crypto.timingSafeEqual` with buffers of different
byte lengths and throws a `RangeError` instead of returning a
boolean. -/
theorem C3_verifySignature_throws :
    WebhookManager.verifySignature "x"
        (String.mk (List.replicate 64 'é')) "k" =
      .error "RangeError: Input buffers must have the same byte length" := by
  set_option maxRecDepth 10000 in rfl

end ThreadsMCP
